import Mathlib

set_option maxHeartbeats 1000000

/-!
Verification of the StatTools statistical computation engine.

The statistical routines are translated from the TypeScript source
(`statistical.ts` and the extended statistics module).  Numbers are
modelled as exact rationals where the source uses only field operations,
and as real numbers where the source calls `Math.sqrt` / `Math.exp`.

JavaScript arithmetic produces `NaN` / `Infinity` at a division by zero.
Wherever a zero divisor is reachable inside the domain of one of the
verified properties, the division is embedded through the `JNum` type
below, which mirrors the IEEE special values (one zero, no negative
zero, which the source never distinguishes).  Divisions whose divisor is
provably nonzero on every input considered by a property are embedded as
plain field divisions.
-/

/-- A JavaScript number: a finite value, `NaN`, or a signed infinity. -/
inductive JNum (α : Type) where
  | fin : α → JNum α
  | nan : JNum α
  | posInf : JNum α
  | negInf : JNum α

/-- JS division.  `x / 0` is `NaN` when `x = 0`, otherwise a signed
infinity; infinities divide as in IEEE-754. -/
def jdiv {α : Type} [LinearOrderedField α] : JNum α → JNum α → JNum α
  | .nan, _ => .nan
  | _, .nan => .nan
  | .fin x, .fin y =>
      if y = 0 then (if x = 0 then .nan else if 0 < x then .posInf else .negInf)
      else .fin (x / y)
  | .fin _, .posInf => .fin 0
  | .fin _, .negInf => .fin 0
  | .posInf, .fin y => if y < 0 then .negInf else .posInf
  | .negInf, .fin y => if y < 0 then .posInf else .negInf
  | .posInf, .posInf => .nan
  | .posInf, .negInf => .nan
  | .negInf, .posInf => .nan
  | .negInf, .negInf => .nan

/-- JS division of two finite values. -/
def jdivF {α : Type} [LinearOrderedField α] (x y : α) : JNum α :=
  jdiv (.fin x) (.fin y)

/-- JS addition on possibly non-finite numbers. -/
def jadd {α : Type} [LinearOrderedField α] : JNum α → JNum α → JNum α
  | .nan, _ => .nan
  | _, .nan => .nan
  | .fin x, .fin y => .fin (x + y)
  | .fin _, .posInf => .posInf
  | .fin _, .negInf => .negInf
  | .posInf, .fin _ => .posInf
  | .negInf, .fin _ => .negInf
  | .posInf, .posInf => .posInf
  | .negInf, .negInf => .negInf
  | .posInf, .negInf => .nan
  | .negInf, .posInf => .nan

/-- JS subtraction on possibly non-finite numbers. -/
def jsub {α : Type} [LinearOrderedField α] : JNum α → JNum α → JNum α
  | .nan, _ => .nan
  | _, .nan => .nan
  | .fin x, .fin y => .fin (x - y)
  | .fin _, .posInf => .negInf
  | .fin _, .negInf => .posInf
  | .posInf, .fin _ => .posInf
  | .negInf, .fin _ => .negInf
  | .posInf, .posInf => .nan
  | .negInf, .negInf => .nan
  | .posInf, .negInf => .posInf
  | .negInf, .posInf => .negInf

/-- JS `Math.abs`. -/
def jabs {α : Type} [LinearOrderedField α] : JNum α → JNum α
  | .fin x => .fin |x|
  | .nan => .nan
  | .posInf => .posInf
  | .negInf => .posInf

/-- JS comparison `x > c` against a finite bound, as a proposition.
Comparisons against `NaN` are false. -/
def jgtP {α : Type} [LinearOrderedField α] : JNum α → α → Prop
  | .fin v, c => c < v
  | .nan, _ => False
  | .posInf, _ => True
  | .negInf, _ => False

/-- JS comparison `x > c` against a finite bound, as a boolean. -/
def jgtb {α : Type} [LinearOrderedField α] : JNum α → α → Bool
  | .fin v, c => decide (c < v)
  | .nan, _ => false
  | .posInf, _ => true
  | .negInf, _ => false

/-- JS truthiness of a number: `0` and `NaN` are falsy. -/
def jtruthy {α : Type} [LinearOrderedField α] : JNum α → Bool
  | .fin v => decide (v ≠ 0)
  | .nan => false
  | .posInf => true
  | .negInf => true

/-! ## Descriptive statistics (`stats` object of `statistical.ts`) -/

/-- `stats.mean`: `data.reduce((sum, val) => sum + val, 0) / data.length`. -/
def mean {α : Type} [Field α] (data : List α) : α :=
  data.foldl (fun sum val => sum + val) 0 / (data.length : α)

/-- `stats.variance`: sample variance with an `n - 1` denominator,
`data.reduce((sum, val) => sum + (val - mean)^2, 0) / (data.length - 1)`. -/
def variance {α : Type} [Field α] (data : List α) : α :=
  data.foldl (fun sum val => sum + (val - mean data) ^ 2) 0 / ((data.length : α) - 1)

/-- `stats.standardDeviation`: `Math.sqrt(stats.variance(data))`. -/
noncomputable def standardDeviation (data : List ℝ) : ℝ :=
  Real.sqrt (variance data)

/-- `Math.min(...data)` for a sample.  `Math.min()` of an empty spread is
`+Infinity`; the empty case never occurs in the verified properties and
is given the junk value `0`. -/
def listMin (l : List ℚ) : ℚ :=
  match l with
  | [] => 0
  | h :: t => t.foldl min h

/-- `Math.max(...data)` for a sample, same conventions as `listMin`. -/
def listMax (l : List ℚ) : ℚ :=
  match l with
  | [] => 0
  | h :: t => t.foldl max h

/-! ## Error function (`erf` of `statistical.ts`) -/

/-- Abramowitz–Stegun coefficients of the source `erf`. -/
def erfA1 : ℝ := 0.254829592
def erfA2 : ℝ := -0.284496736
def erfA3 : ℝ := 1.421413741
def erfA4 : ℝ := -1.453152027
def erfA5 : ℝ := 1.061405429
def erfP : ℝ := 0.3275911

/-- The body of the source `erf` after the sign has been extracted and
`x` replaced by its absolute value `z`. -/
noncomputable def erfBody (z : ℝ) : ℝ :=
  1.0 - (((((erfA5 * (1.0 / (1.0 + erfP * z)) + erfA4) * (1.0 / (1.0 + erfP * z))) + erfA3) *
      (1.0 / (1.0 + erfP * z)) + erfA2) * (1.0 / (1.0 + erfP * z)) + erfA1) *
      (1.0 / (1.0 + erfP * z)) * Real.exp (-(z * z))

/-- `erf(x)`: `const sign = x < 0 ? -1 : 1; x = Math.abs(x); ...;
return sign * y`. -/
noncomputable def erf (x : ℝ) : ℝ :=
  (if x < 0 then (-1 : ℝ) else 1) * erfBody |x|

/-! ## The `jStat` object

The module resolves `jStat` to `window.jStat` when a browser copy is
loaded, and otherwise to the in-repo fallback object.  The embedding
models the fallback, which defines `normal.pdf`, `normal.cdf` and
`studentt.pdf` but **no** `studentt.cdf`: the property access
`jStat.studentt.cdf` therefore yields `undefined`.  Only that field is
consulted by the verified properties, so it is the only one embedded. -/

/-- `jStat.studentt.cdf` of the fallback object: absent. -/
def jStatStudenttCdf : Option (JNum ℝ → ℝ → ℝ) := none

/-- The JS number coercion applied when `jStat.studentt.cdf` appears in
an arithmetic expression: `undefined` (absent property) and a function
object both coerce to `NaN`. -/
def cdfAsNumber (c : Option (JNum ℝ → ℝ → ℝ)) : JNum ℝ :=
  match c with
  | none => .nan
  | some _ => .nan

/-! ## Hypothesis tests

Display-only strings of the source result records (`testName`,
`interpretation`) are omitted; every numeric and boolean field is kept. -/

structure OneSampleTResult where
  tStatistic : JNum ℝ
  degreesOfFreedom : ℤ
  pValue : ℝ
  criticalValue : ℝ
  reject : Prop
  alpha : ℝ

/-- `hypothesisTests.oneSampleTTest(data, mu0, alpha)`.  The p-value is
`2 * (1 - jStat.studentt.cdf ? jStat.studentt.cdf(Math.abs(tStat), df) : 0.5)`,
which parses as `2 * ((1 - jStat.studentt.cdf) ? ... : 0.5)`; the
condition coerces to `NaN` and is falsy, so the `0.5` arm is taken (the
unreachable call arm is given the junk value `0`). -/
noncomputable def oneSampleTTest (data : List ℝ) (mu0 alpha : ℝ) : OneSampleTResult :=
  let n : ℝ := data.length
  let m := mean data
  let std := standardDeviation data
  let tStat := jdivF (m - mu0) (std / Real.sqrt n)
  let tCritical : ℝ := 1.96
  { tStatistic := tStat
    degreesOfFreedom := (data.length : ℤ) - 1
    pValue := 2 * (if jtruthy (jsub (.fin 1) (cdfAsNumber jStatStudenttCdf)) then
        (match jStatStudenttCdf with
         | some f => f (jabs tStat) (n - 1)
         | none => 0)
      else 0.5)
    criticalValue := tCritical
    reject := jgtP (jabs tStat) tCritical
    alpha := alpha }

structure TwoSampleTResult where
  tStatistic : JNum ℝ
  degreesOfFreedom : ℝ
  pValue : ℝ
  criticalValue : ℝ
  reject : Prop
  alpha : ℝ
  meanDifference : ℝ
  sample1Mean : ℝ
  sample2Mean : ℝ

/-- `twoSampleTTest(sample1, sample2, alpha, equalVariance)` of the
extended statistics module.  The p-value is
`2 * (1 - (jStat?.studentt?.cdf?.(Math.abs(tStat), df) ?? 0.5))`; the
fallback `jStat.studentt` has no `cdf`, so the optional call yields
`undefined` and `?? 0.5` applies. -/
noncomputable def twoSampleTTest (sample1 sample2 : List ℝ) (alpha : ℝ)
    (equalVariance : Bool) : TwoSampleTResult :=
  let n1 : ℝ := sample1.length
  let n2 : ℝ := sample2.length
  let mean1 := mean sample1
  let mean2 := mean sample2
  let var1 := variance sample1
  let var2 := variance sample2
  let tStat : JNum ℝ :=
    if equalVariance then
      jdivF (mean1 - mean2)
        (Real.sqrt (((n1 - 1) * var1 + (n2 - 1) * var2) / (n1 + n2 - 2) * (1 / n1 + 1 / n2)))
    else
      jdivF (mean1 - mean2) (Real.sqrt (var1 / n1 + var2 / n2))
  let df : ℝ :=
    if equalVariance then n1 + n2 - 2
    else (var1 / n1 + var2 / n2) ^ 2 /
      ((var1 / n1) ^ 2 / (n1 - 1) + (var2 / n2) ^ 2 / (n2 - 1))
  let pValue : ℝ := 2 * (1 - (match jStatStudenttCdf with
    | some f => f (jabs tStat) df
    | none => 0.5))
  { tStatistic := tStat
    degreesOfFreedom := df
    pValue := pValue
    criticalValue := 1.96
    reject := pValue < alpha
    alpha := alpha
    meanDifference := mean1 - mean2
    sample1Mean := mean1
    sample2Mean := mean2 }

structure PairedTResult where
  tStatistic : JNum ℝ
  degreesOfFreedom : ℤ
  pValue : ℝ
  criticalValue : ℝ
  reject : Prop
  alpha : ℝ
  meanDifference : ℝ

/-- `pairedTTest(before, after, alpha)`: throws on a length mismatch,
otherwise works on the element-wise differences `after[i] - before[i]`. -/
noncomputable def pairedTTest (preSample postSample : List ℝ) (alpha : ℝ) :
    Except String PairedTResult :=
  if preSample.length ≠ postSample.length then
    .error "Paired samples must have equal length"
  else
    let differences := List.zipWith (fun val a => a - val) preSample postSample
    let n : ℝ := differences.length
    let meanDiff := mean differences
    let stdDiff := standardDeviation differences
    let tStat := jdivF meanDiff (stdDiff / Real.sqrt n)
    let pValue : ℝ := 2 * (1 - (match jStatStudenttCdf with
      | some f => f (jabs tStat) (n - 1)
      | none => 0.5))
    .ok { tStatistic := tStat
          degreesOfFreedom := (differences.length : ℤ) - 1
          pValue := pValue
          criticalValue := 1.96
          reject := pValue < alpha
          alpha := alpha
          meanDifference := meanDiff }

structure ANOVAResult where
  fStatistic : JNum ℚ
  dfBetween : ℤ
  dfWithin : ℤ
  dfTotal : ℤ
  sumOfSquaresBetween : ℚ
  sumOfSquaresWithin : ℚ
  meanSquareBetween : JNum ℚ
  meanSquareWithin : JNum ℚ
  pValue : ℚ
  criticalValue : ℚ
  reject : Bool
  alpha : ℚ

/-- `oneWayANOVA(groups, alpha)`: between/within sums of squares, mean
squares `ssb/(k-1)` and `ssw/(N-k)` (JS divisions, hence `JNum`), the
F statistic as their quotient, and the coarse fixed policy: critical
value `3.0` and p-value `0.01`/`0.1` by the JS comparison `fStat > 3`. -/
def oneWayANOVA (groups : List (List ℚ)) (alpha : ℚ) : ANOVAResult :=
  let k := groups.length
  let allData := groups.flatten
  let N := allData.length
  let grandMean := mean allData
  let ssb := groups.foldl (fun s group => s + (group.length : ℚ) * (mean group - grandMean) ^ 2) 0
  let ssw := groups.foldl (fun s group => group.foldl (fun s2 v => s2 + (v - mean group) ^ 2) s) 0
  let msb := jdivF ssb ((k : ℚ) - 1)
  let msw := jdivF ssw ((N : ℚ) - (k : ℚ))
  let fStat := jdiv msb msw
  { fStatistic := fStat
    dfBetween := (k : ℤ) - 1
    dfWithin := (N : ℤ) - (k : ℤ)
    dfTotal := (N : ℤ) - 1
    sumOfSquaresBetween := ssb
    sumOfSquaresWithin := ssw
    meanSquareBetween := msb
    meanSquareWithin := msw
    pValue := if jgtb fStat 3.0 then 0.01 else 0.1
    criticalValue := 3.0
    reject := jgtb fStat 3.0
    alpha := alpha }

structure ChiSquareGoFResult where
  chiSquareStatistic : JNum ℚ
  degreesOfFreedom : ℤ
  criticalValue : ℚ
  reject : Bool
  alpha : ℚ

/-- `hypothesisTests.chiSquareGoodnessOfFit(observed, expected, alpha)`:
throws on a length mismatch, then sums `(O - E)² / E` over exactly the
categories with `expected[i] > 0`. -/
def chiSquareGoodnessOfFit (observed expected : List ℚ) (alpha : ℚ) :
    Except String ChiSquareGoFResult :=
  if observed.length ≠ expected.length then
    .error "Observed and expected arrays must have the same length"
  else
    let chiSquare := (List.zip observed expected).foldl
      (fun acc oe => if 0 < oe.2 then jadd acc (jdivF ((oe.1 - oe.2) ^ 2) oe.2) else acc)
      (.fin 0)
    .ok { chiSquareStatistic := chiSquare
          degreesOfFreedom := (observed.length : ℤ) - 1
          criticalValue := 7.815
          reject := jgtb chiSquare 7.815
          alpha := alpha }

/-! ## Confidence interval for the mean -/

structure ConfidenceIntervalMeanResult where
  mean : ℝ
  confidenceLevel : ℝ
  lowerBound : ℝ
  upperBound : ℝ
  marginOfError : ℝ
  standardError : ℝ

/-- `confidenceIntervalMean(data, confidenceLevel)`: the critical
multiplier is the three-value lookup
`confidenceLevel === 0.95 ? 1.96 : confidenceLevel === 0.99 ? 2.576 : 1.645`. -/
noncomputable def confidenceIntervalMean (data : List ℝ) (confidenceLevel : ℝ) :
    ConfidenceIntervalMeanResult :=
  let n : ℝ := data.length
  let m := mean data
  let std := standardDeviation data
  let tCritical : ℝ :=
    if confidenceLevel = 0.95 then 1.96 else if confidenceLevel = 0.99 then 2.576 else 1.645
  let marginOfError := tCritical * (std / Real.sqrt n)
  { mean := m
    confidenceLevel := confidenceLevel
    lowerBound := m - marginOfError
    upperBound := m + marginOfError
    marginOfError := marginOfError
    standardError := std / Real.sqrt n }

/-! ## Histogram -/

/-- One entry of the list returned by `stats.histogram`; the formatted
`"lo-hi"` label string is kept as the pair of endpoints. -/
structure HistogramBin where
  binLo : ℚ
  binHi : ℚ
  count : ℕ
  frequency : JNum ℚ

/-- Which slot of `binCounts` a data value lands in:
`Math.floor((value - min) / binWidth)`, with a computed index equal to
`bins` folded to `bins - 1`.  A zero `binWidth` makes the quotient `NaN`
(every data value equals the minimum then), `Math.floor(NaN)` is `NaN`,
and `binCounts[NaN]++` touches no integer slot of the array: that is the
`none` case, which performs no increment. -/
def binSlot (mn w : ℚ) (bins : ℕ) (value : ℚ) : Option ℤ :=
  match jdivF (value - mn) w with
  | .fin q => some (if ⌊q⌋ = (bins : ℤ) then (bins : ℤ) - 1 else ⌊q⌋)
  | _ => none

/-- `binCounts[binIndex]++` for one data value: the counts array is
modelled as a function `ℕ → ℕ`, read back at the indices
`0, …, bins - 1` only (JS writes outside that range land on non-index
properties of the array and are invisible in the output). -/
def bumpCounts (mn w : ℚ) (bins : ℕ) (counts : ℕ → ℕ) (value : ℚ) : ℕ → ℕ :=
  match binSlot mn w bins value with
  | some i => fun j => if (j : ℤ) = i then counts j + 1 else counts j
  | none => counts

/-- `stats.histogram(data, bins)`: equal-width bins between the sample
minimum and maximum. -/
def histogram (data : List ℚ) (bins : ℕ) : List HistogramBin :=
  let mn := listMin data
  let mx := listMax data
  let binWidth := (mx - mn) / (bins : ℚ)
  let binCounts : ℕ → ℕ := data.foldl (bumpCounts mn binWidth bins) (fun _ => 0)
  (List.range bins).map (fun (i : ℕ) =>
    { binLo := mn + (i : ℚ) * binWidth
      binHi := mn + ((i : ℚ) + 1) * binWidth
      count := binCounts i
      frequency := jdivF (binCounts i : ℚ) (data.length : ℚ) })

/-! ## Mode -/

/-- The keys of the `frequency` object built by `stats.mode`: the
distinct sample values, in first-occurrence order.  (The JS object
re-orders integer-like keys, which is irrelevant to the verified
set-of-values properties.) -/
def modeKeys (data : List ℚ) : List ℚ :=
  data.foldl (fun acc v => if v ∈ acc then acc else acc ++ [v]) []

/-- `Math.max(...Object.values(frequency))`.  For a non-empty sample
every frequency is at least `1`, so folding from `0` gives the same
maximum. -/
def maxFreq (data : List ℚ) : ℕ :=
  ((modeKeys data).map (fun k => data.count k)).foldl max 0

/-- `stats.mode(data)`: every key whose frequency equals the maximum. -/
def mode (data : List ℚ) : List ℚ :=
  (modeKeys data).filter (fun k => data.count k = maxFreq data)

/-! ## Coin flip simulation -/

structure FlipState where
  heads : ℕ
  tails : ℕ
  results : List String
  cum : List (ℕ × ℚ)

/-- `Math.max(1, Math.floor(numFlips / 100))`, the checkpoint spacing of
`coinFlipSimulation`. -/
def checkpointStep (numFlips : ℕ) : ℕ := max 1 (numFlips / 100)

/-- One iteration of the `coinFlipSimulation` loop, at index `i`:
`const flip = Math.random() < probability ? 'H' : 'T'`, the counters,
and the cumulative-proportion checkpoint pushed when
`(i + 1) % max(1, floor(numFlips / 100)) === 0 || i === numFlips - 1`. -/
def flipStep (rand : ℕ → ℚ) (p : ℚ) (numFlips : ℕ) (s : FlipState) (i : ℕ) : FlipState :=
  let isHeads : Bool := decide (rand i < p)
  let heads := if isHeads then s.heads + 1 else s.heads
  let tails := if isHeads then s.tails else s.tails + 1
  let results := s.results ++ [if isHeads then "H" else "T"]
  if (i + 1) % checkpointStep numFlips = 0 ∨ i = numFlips - 1 then
    { heads := heads, tails := tails, results := results
      cum := s.cum ++ [(i + 1, (heads : ℚ) / ((i : ℚ) + 1))] }
  else
    { heads := heads, tails := tails, results := results, cum := s.cum }

/-- The loop state after the first `n` of the `numFlips` iterations. -/
def flipIter (rand : ℕ → ℚ) (p : ℚ) (numFlips : ℕ) : ℕ → FlipState
  | 0 => { heads := 0, tails := 0, results := [], cum := [] }
  | n + 1 => flipStep rand p numFlips (flipIter rand p numFlips n) n

structure CoinFlipResult where
  numFlips : ℕ
  heads : ℕ
  tails : ℕ
  headsRatio : ℚ
  tailsRatio : ℚ
  results : List String
  cumulativeProportions : List (ℕ × ℚ)

/-- `coinFlipSimulation(numFlips, probability)`.  The `Math.random()`
draws are supplied explicitly: `rand i` is the draw of iteration `i`. -/
def coinFlipSimulation (numFlips : ℕ) (probability : ℚ) (rand : ℕ → ℚ) : CoinFlipResult :=
  let s := flipIter rand probability numFlips numFlips
  { numFlips := numFlips
    heads := s.heads
    tails := s.tails
    headsRatio := (s.heads : ℚ) / (numFlips : ℚ)
    tailsRatio := (s.tails : ℚ) / (numFlips : ℚ)
    results := s.results.take 100
    cumulativeProportions := s.cum }

/-! ## Theorems -/

theorem erfBody_zero : erfBody 0 = 1 / 1000000000 := by
  simp only [erfBody, mul_zero, add_zero, neg_zero, Real.exp_zero, zero_mul, neg_mul]
  norm_num [erfA1, erfA2, erfA3, erfA4, erfA5, erfP]

theorem erf_zero_pos : erf 0 = 1 / 1000000000 := by
  rw [erf, if_neg (by norm_num), abs_zero, erfBody_zero, one_mul]

/-- C7 (counterexample): the claimed odd symmetry `erf(-x) = -erf(x)`
fails at `x = 0`: the source coefficients sum to `0.999999999`, so
`erf(0) = 10⁻⁹ ≠ 0` and hence `erf(-0) ≠ -erf(0)`. -/
theorem C7_erf_odd_counterexample : ¬ (erf (-(0 : ℝ)) = -erf 0) := by
  rw [neg_zero, erf_zero_pos]
  norm_num

/-- C7 (amended): the sign is extracted before the magnitude is
evaluated, so `erf(-x) = -erf(x)` holds for every `x ≠ 0`; at `x = 0`
the value is the tiny nonzero constant `10⁻⁹`, not `0`. -/
theorem C7_erf_odd_amended (x : ℝ) (hx : x ≠ 0) : erf (-x) = -erf x := by
  rcases lt_or_gt_of_ne hx with h | h
  · simp only [erf, abs_neg]
    rw [if_neg (by simp only [not_lt]; linarith), if_pos h]
    ring
  · simp only [erf, abs_neg]
    rw [if_pos (by linarith), if_neg (by simp only [not_lt]; linarith)]
    ring

/-- C7 witness: the amended symmetry at the concrete point `x = 2`. -/
theorem C7_erf_odd_amended_witness : erf (-(2 : ℝ)) = -erf 2 :=
  C7_erf_odd_amended 2 (by norm_num)

/-! ### C1: the p-values of the t tests are constant -/

theorem cdf_condition_falsy :
    jtruthy (jsub (.fin 1) (cdfAsNumber jStatStudenttCdf)) = false := rfl

/-- C1: with the in-repo fallback `jStat` object, `oneSampleTTest`,
`twoSampleTTest` (both variants) and `pairedTTest` always return
`pValue = 1`: the one-sample ternary condition `1 - jStat.studentt.cdf`
is `NaN` and never truthy, and the fallback defines no `studentt.cdf`,
so `?? 0.5` always applies in the other two tests.  Consequently
`twoSampleTTest` and `pairedTTest` never reject for `alpha ≤ 1`, and the
one-sample reject flag is exactly `|tStatistic| > 1.96`. -/
theorem C1_pvalue_always_one (data s1 s2 preS postS : List ℝ) (mu0 alpha : ℝ)
    (ev : Bool) (halpha : alpha ≤ 1) (hlen : preS.length = postS.length) :
    (oneSampleTTest data mu0 alpha).pValue = 1 ∧
    ((oneSampleTTest data mu0 alpha).reject ↔
      jgtP (jabs (oneSampleTTest data mu0 alpha).tStatistic) 1.96) ∧
    (twoSampleTTest s1 s2 alpha ev).pValue = 1 ∧
    ¬ (twoSampleTTest s1 s2 alpha ev).reject ∧
    (∃ r, pairedTTest preS postS alpha = Except.ok r ∧ r.pValue = 1 ∧ ¬ r.reject) := by
  refine ⟨?_, ?_, ?_, ?_, ?_⟩
  · simp only [oneSampleTTest, cdf_condition_falsy, Bool.false_eq_true, if_false]
    norm_num
  · simp only [oneSampleTTest]
  · simp only [twoSampleTTest, jStatStudenttCdf]
    norm_num
  · simp only [twoSampleTTest, jStatStudenttCdf]
    norm_num
    exact halpha
  · rw [pairedTTest, if_neg (by simpa using hlen)]
    refine ⟨_, rfl, ?_, ?_⟩
    · simp only [jStatStudenttCdf]
      norm_num
    · simp only [jStatStudenttCdf]
      norm_num
      exact halpha

/-- C1 witness: the statement at concrete samples. -/
theorem C1_pvalue_always_one_witness :
    (oneSampleTTest [1, 2] 0 0.05).pValue = 1 ∧
    ((oneSampleTTest [1, 2] 0 0.05).reject ↔
      jgtP (jabs (oneSampleTTest [1, 2] 0 0.05).tStatistic) 1.96) ∧
    (twoSampleTTest [1, 2] [3, 4] 0.05 true).pValue = 1 ∧
    ¬ (twoSampleTTest [1, 2] [3, 4] 0.05 true).reject ∧
    (∃ r, pairedTTest [1, 2] [3, 4] 0.05 = Except.ok r ∧ r.pValue = 1 ∧ ¬ r.reject) :=
  C1_pvalue_always_one [1, 2] [1, 2] [3, 4] [1, 2] [3, 4] 0 0.05 true (by norm_num) (by simp)

/-! ### C2: the paired test length check -/

/-- C2: `pairedTTest` raises the descriptive error
`"Paired samples must have equal length"` exactly when the input lengths
differ, and on equal lengths it returns normally with
`degreesOfFreedom = before.length - 1`. -/
theorem C2_pairedTTest_length_check (preS postS : List ℝ) (alpha : ℝ) :
    (pairedTTest preS postS alpha = Except.error "Paired samples must have equal length"
        ↔ preS.length ≠ postS.length) ∧
    (preS.length = postS.length →
      ∃ r, pairedTTest preS postS alpha = Except.ok r ∧
        r.degreesOfFreedom = (preS.length : ℤ) - 1) := by
  constructor
  · constructor
    · intro h
      by_contra heq
      rw [pairedTTest, if_neg (by simpa using heq)] at h
      exact absurd h (by simp)
    · intro hne
      rw [pairedTTest, if_pos hne]
  · intro heq
    rw [pairedTTest, if_neg (by simpa using heq)]
    refine ⟨_, rfl, ?_⟩
    simp [List.length_zipWith, heq]

/-- C2 witness: equal-length inputs of length 2 give `df = 1`; inputs of
lengths 2 and 3 raise the length-mismatch error. -/
theorem C2_pairedTTest_length_check_witness :
    (pairedTTest [1, 2] [3, 4, 5] 0.05
        = Except.error "Paired samples must have equal length") ∧
    (∃ r, pairedTTest [1, 2] [3, 4] 0.05 = Except.ok r ∧ r.degreesOfFreedom = 1) := by
  constructor
  · exact (C2_pairedTTest_length_check [1, 2] [3, 4, 5] 0.05).1.mpr (by simp)
  · simpa using (C2_pairedTTest_length_check [1, 2] [3, 4] 0.05).2 (by simp)

/-! ### C5: the ANOVA policy values -/

/-- C5: for a valid group list, `oneWayANOVA` returns the fixed critical
value `3.0`, rejects exactly when `fStatistic > 3.0` (JS comparison, so
an `NaN` F statistic never rejects), returns the coarse p-value `0.01`
when `fStatistic > 3.0` and `0.1` otherwise, and the degrees of freedom
`(k - 1, N - k, N - 1)`. -/
theorem C5_oneWayANOVA_policy (groups : List (List ℚ)) (alpha : ℚ)
    (hk : 1 ≤ groups.length) (hne : ∀ g ∈ groups, g ≠ [])
    (hNk : groups.length < groups.flatten.length) :
    (oneWayANOVA groups alpha).criticalValue = 3.0 ∧
    ((oneWayANOVA groups alpha).reject = jgtb (oneWayANOVA groups alpha).fStatistic 3.0) ∧
    ((oneWayANOVA groups alpha).pValue
        = if jgtb (oneWayANOVA groups alpha).fStatistic 3.0 then 0.01 else 0.1) ∧
    ((oneWayANOVA groups alpha).pValue = 0.01 ↔ (oneWayANOVA groups alpha).reject = true) ∧
    (oneWayANOVA groups alpha).dfBetween = (groups.length : ℤ) - 1 ∧
    (oneWayANOVA groups alpha).dfWithin
        = (groups.flatten.length : ℤ) - (groups.length : ℤ) ∧
    (oneWayANOVA groups alpha).dfTotal = (groups.flatten.length : ℤ) - 1 := by
  refine ⟨rfl, rfl, rfl, ?_, rfl, rfl, rfl⟩
  have hr : (oneWayANOVA groups alpha).reject
      = jgtb (oneWayANOVA groups alpha).fStatistic 3.0 := rfl
  have hp : (oneWayANOVA groups alpha).pValue
      = if jgtb (oneWayANOVA groups alpha).fStatistic 3.0 then 0.01 else 0.1 := rfl
  rw [hp, hr]
  by_cases h : jgtb (oneWayANOVA groups alpha).fStatistic 3.0
  · rw [if_pos h, h]
    simp
  · rw [if_neg h]
    simp only [h, Bool.false_eq_true, iff_false]
    norm_num

/-- C5 witness: the policy at the concrete groups `[[1, 2], [3]]`. -/
theorem C5_oneWayANOVA_policy_witness :
    (oneWayANOVA [[1, 2], [3]] 0.05).criticalValue = 3.0 ∧
    ((oneWayANOVA [[1, 2], [3]] 0.05).reject
        = jgtb (oneWayANOVA [[1, 2], [3]] 0.05).fStatistic 3.0) ∧
    ((oneWayANOVA [[1, 2], [3]] 0.05).pValue
        = if jgtb (oneWayANOVA [[1, 2], [3]] 0.05).fStatistic 3.0 then 0.01 else 0.1) ∧
    ((oneWayANOVA [[1, 2], [3]] 0.05).pValue = 0.01
        ↔ (oneWayANOVA [[1, 2], [3]] 0.05).reject = true) ∧
    (oneWayANOVA [[1, 2], [3]] 0.05).dfBetween = 1 ∧
    (oneWayANOVA [[1, 2], [3]] 0.05).dfWithin = 1 ∧
    (oneWayANOVA [[1, 2], [3]] 0.05).dfTotal = 2 := by
  have h := C5_oneWayANOVA_policy [[1, 2], [3]] 0.05 (by simp) (by simp) (by simp)
  simpa using h

/-! ### C10: the guarded chi-square sum -/

/-- Folding a guarded accumulation is folding over the filtered list. -/
theorem foldl_guard_filter {α β : Type} (p : α → Bool) (f : β → α → β) :
    ∀ (l : List α) (b : β),
      l.foldl (fun acc x => if p x then f acc x else acc) b = (l.filter p).foldl f b := by
  intro l
  induction l with
  | nil => intro b; rfl
  | cons h t ih =>
    intro b
    by_cases hp : p h
    · simp [List.filter_cons, hp, ih]
    · simp [List.filter_cons, hp, ih]

/-- The guarded `JNum` chi-square fold stays finite and agrees with the
plain rational fold. -/
theorem chiSquare_fold_fin :
    ∀ (l : List (ℚ × ℚ)) (a : ℚ),
      l.foldl (fun acc oe => if 0 < oe.2 then jadd acc (jdivF ((oe.1 - oe.2) ^ 2) oe.2) else acc)
          (.fin a)
        = .fin (l.foldl (fun acc oe => if 0 < oe.2 then acc + (oe.1 - oe.2) ^ 2 / oe.2 else acc)
            a) := by
  intro l
  induction l with
  | nil => intro a; rfl
  | cons h t ih =>
    intro a
    by_cases hp : 0 < h.2
    · have hdiv : jdivF ((h.1 - h.2) ^ 2) h.2 = JNum.fin ((h.1 - h.2) ^ 2 / h.2) := by
        simp only [jdivF, jdiv]
        rw [if_neg (by exact fun hz => absurd hz (ne_of_gt hp))]
      rw [List.foldl_cons, List.foldl_cons, if_pos hp, if_pos hp, hdiv]
      have hadd : jadd (JNum.fin a) (JNum.fin ((h.1 - h.2) ^ 2 / h.2))
          = JNum.fin (a + (h.1 - h.2) ^ 2 / h.2) := rfl
      rw [hadd, ih]
    · rw [List.foldl_cons, List.foldl_cons, if_neg hp, if_neg hp, ih]

/-- The plain guarded chi-square fold is monotone from a nonnegative
start. -/
theorem chiSquare_fold_nonneg :
    ∀ (l : List (ℚ × ℚ)) (a : ℚ), 0 ≤ a →
      0 ≤ l.foldl (fun acc oe => if 0 < oe.2 then acc + (oe.1 - oe.2) ^ 2 / oe.2 else acc) a := by
  intro l
  induction l with
  | nil => intro a ha; exact ha
  | cons h t ih =>
    intro a ha
    by_cases hp : 0 < h.2
    · simp only [List.foldl_cons, if_pos hp]
      exact ih _ (add_nonneg ha (div_nonneg (sq_nonneg _) (le_of_lt hp)))
    · simp only [List.foldl_cons, if_neg hp]
      exact ih _ ha

/-- C10: on equal-length inputs `chiSquareGoodnessOfFit` returns
normally; every category with `expected[i] ≤ 0` is skipped (the
statistic equals the fold over the categories with positive expected
count), so the division is guarded and the statistic is a finite
nonnegative rational even when `expected` contains zeros. -/
theorem C10_chiSquare_guarded (observed expected : List ℚ) (alpha : ℚ)
    (hlen : observed.length = expected.length) :
    ∃ r, chiSquareGoodnessOfFit observed expected alpha = Except.ok r ∧
      ∃ q : ℚ, r.chiSquareStatistic = JNum.fin q ∧ 0 ≤ q ∧
        q = ((List.zip observed expected).filter (fun oe => decide (0 < oe.2))).foldl
              (fun acc oe => acc + (oe.1 - oe.2) ^ 2 / oe.2) 0 := by
  rw [chiSquareGoodnessOfFit, if_neg (by simpa using hlen)]
  refine ⟨_, rfl, _, chiSquare_fold_fin _ 0, chiSquare_fold_nonneg _ 0 le_rfl, ?_⟩
  rw [← foldl_guard_filter (fun oe => decide (0 < oe.2))
    (fun acc oe => acc + (oe.1 - oe.2) ^ 2 / oe.2) (List.zip observed expected) 0]
  simp only [decide_eq_true_eq]

/-! ### C6: confidence interval bounds -/

/-- C6: for samples of length at least 2 and a confidence level among
90/95/99 percent, the interval brackets the sample mean; any other level
silently falls back to the 90 percent multiplier `1.645`. -/
theorem C6_confidenceIntervalMean_bounds (data : List ℝ) (level : ℝ)
    (hlen : 2 ≤ data.length) :
    ((level = 0.9 ∨ level = 0.95 ∨ level = 0.99) →
      (confidenceIntervalMean data level).lowerBound
          ≤ (confidenceIntervalMean data level).mean ∧
      (confidenceIntervalMean data level).mean
          ≤ (confidenceIntervalMean data level).upperBound) ∧
    (level ≠ 0.95 → level ≠ 0.99 →
      (confidenceIntervalMean data level).marginOfError
        = 1.645 * (confidenceIntervalMean data level).standardError) := by
  have hmoe : (confidenceIntervalMean data level).marginOfError
      = (if level = 0.95 then (1.96 : ℝ) else if level = 0.99 then 2.576 else 1.645)
        * (standardDeviation data / Real.sqrt (data.length : ℝ)) := rfl
  have hmargin : 0 ≤ (confidenceIntervalMean data level).marginOfError := by
    rw [hmoe]
    refine mul_nonneg ?_ (div_nonneg ?_ (Real.sqrt_nonneg _))
    · split_ifs <;> norm_num
    · rw [standardDeviation]
      exact Real.sqrt_nonneg _
  have hlb : (confidenceIntervalMean data level).lowerBound
      = (confidenceIntervalMean data level).mean
        - (confidenceIntervalMean data level).marginOfError := rfl
  have hub : (confidenceIntervalMean data level).upperBound
      = (confidenceIntervalMean data level).mean
        + (confidenceIntervalMean data level).marginOfError := rfl
  refine ⟨fun _ => ⟨?_, ?_⟩, fun h1 h2 => ?_⟩
  · rw [hlb]
    linarith
  · rw [hub]
    linarith
  · rw [hmoe, if_neg h1, if_neg h2]
    rfl

/-- C6 witness: the bound statement at the sample `[1, 2]`, level 90
percent, and the fallback multiplier at the unsupported level `0.5`. -/
theorem C6_confidenceIntervalMean_bounds_witness :
    ((confidenceIntervalMean [1, 2] 0.9).lowerBound
        ≤ (confidenceIntervalMean [1, 2] 0.9).mean ∧
      (confidenceIntervalMean [1, 2] 0.9).mean
        ≤ (confidenceIntervalMean [1, 2] 0.9).upperBound) ∧
    (confidenceIntervalMean [1, 2] 0.5).marginOfError
      = 1.645 * (confidenceIntervalMean [1, 2] 0.5).standardError := by
  constructor
  · exact (C6_confidenceIntervalMean_bounds [1, 2] 0.9 (by simp)).1 (Or.inl rfl)
  · exact (C6_confidenceIntervalMean_bounds [1, 2] 0.5 (by simp)).2
      (by norm_num) (by norm_num)

/-! ### C4: the two-sample test on identical samples -/

/-- Folding a sum of images equals the initial value plus the mapped
sum. -/
theorem foldl_add_map {α : Type} (f : α → ℝ) (l : List α) :
    ∀ a : ℝ, l.foldl (fun s v => s + f v) a = a + (l.map f).sum := by
  induction l with
  | nil => intro a; simp
  | cons h t ih =>
    intro a
    rw [List.foldl_cons, ih, List.map_cons, List.sum_cons]
    ring

/-- A sample of length at least 2 with two distinct values has a
(strictly) positive sample variance. -/
theorem variance_pos {l : List ℝ} (h2 : 2 ≤ l.length) {a b : ℝ}
    (ha : a ∈ l) (hb : b ∈ l) (hab : a ≠ b) : 0 < variance l := by
  have key : ∃ c ∈ l, c ≠ mean l := by
    by_cases hma : a = mean l
    · exact ⟨b, hb, fun h => hab (hma.trans h.symm)⟩
    · exact ⟨a, ha, hma⟩
  obtain ⟨c, hc, hcm⟩ := key
  have hterm : 0 < (c - mean l) ^ 2 := by
    have hne : c - mean l ≠ 0 := sub_ne_zero.mpr hcm
    exact lt_of_le_of_ne (sq_nonneg _) (Ne.symm (pow_ne_zero 2 hne))
  have hsum : (c - mean l) ^ 2 ≤ (l.map (fun v => (v - mean l) ^ 2)).sum := by
    apply List.single_le_sum
    · intro x hx
      obtain ⟨v, _, rfl⟩ := List.mem_map.mp hx
      exact sq_nonneg _
    · exact List.mem_map_of_mem _ hc
  have hnum : 0 < l.foldl (fun s v => s + (v - mean l) ^ 2) 0 := by
    rw [foldl_add_map (fun v => (v - mean l) ^ 2) l 0, zero_add]
    exact lt_of_lt_of_le hterm hsum
  have hden : 0 < (l.length : ℝ) - 1 := by
    have hcast : (2 : ℝ) ≤ (l.length : ℝ) := by exact_mod_cast h2
    linarith
  rw [variance]
  exact div_pos hnum hden

/-- C4 (counterexample): on the constant sample `[5, 5]` the pooled
variance is `0`, the standard error is `Math.sqrt(0) = 0`, and the
t statistic is the JS division `0 / 0 = NaN`, not `0`. -/
theorem C4_twoSampleTTest_identical_counterexample :
    (twoSampleTTest [5, 5] [5, 5] 0.05 true).tStatistic ≠ JNum.fin 0 := by
  have hm : mean ([5, 5] : List ℝ) = 5 := by
    norm_num [mean, List.foldl]
  have hv : variance ([5, 5] : List ℝ) = 0 := by
    norm_num [variance, List.foldl, hm]
  have ht : (twoSampleTTest [5, 5] [5, 5] 0.05 true).tStatistic
      = jdivF (mean ([5, 5] : List ℝ) - mean ([5, 5] : List ℝ))
          (Real.sqrt ((((([5, 5] : List ℝ).length : ℝ) - 1) * variance ([5, 5] : List ℝ)
              + ((([5, 5] : List ℝ).length : ℝ) - 1) * variance ([5, 5] : List ℝ))
            / ((([5, 5] : List ℝ).length : ℝ) + (([5, 5] : List ℝ).length : ℝ) - 2)
            * (1 / (([5, 5] : List ℝ).length : ℝ) + 1 / (([5, 5] : List ℝ).length : ℝ)))) := rfl
  rw [ht, hm, hv]
  norm_num [Real.sqrt_zero, jdivF, jdiv]
  exact fun h => JNum.noConfusion h

/-- C4 (amended): for identical samples of length at least 2 containing
at least two distinct values, and any `alpha ≤ 1`, the equal-variance
two-sample test yields `tStatistic = 0` and `reject = false`; on a
constant sample the t statistic is `NaN` instead (see the
counterexample). -/
theorem C4_twoSampleTTest_identical_amended (S : List ℝ) (alpha : ℝ)
    (h2 : 2 ≤ S.length) (hne : ∃ a ∈ S, ∃ b ∈ S, a ≠ b) (halpha : alpha ≤ 1) :
    (twoSampleTTest S S alpha true).tStatistic = JNum.fin 0 ∧
    ¬ (twoSampleTTest S S alpha true).reject := by
  obtain ⟨a, ha, b, hb, hab⟩ := hne
  have hv : 0 < variance S := variance_pos h2 ha hb hab
  have hn : (2 : ℝ) ≤ (S.length : ℝ) := by exact_mod_cast h2
  have harg : 0 < (((S.length : ℝ) - 1) * variance S + ((S.length : ℝ) - 1) * variance S)
      / ((S.length : ℝ) + (S.length : ℝ) - 2)
      * (1 / (S.length : ℝ) + 1 / (S.length : ℝ)) := by
    have hpos1 : 0 < ((S.length : ℝ) - 1) * variance S
        + ((S.length : ℝ) - 1) * variance S := by
      have h1 : 0 < (S.length : ℝ) - 1 := by linarith
      nlinarith
    have hpos2 : 0 < (S.length : ℝ) + (S.length : ℝ) - 2 := by linarith
    have hpos3 : 0 < 1 / (S.length : ℝ) + 1 / (S.length : ℝ) := by
      have : 0 < (S.length : ℝ) := by linarith
      positivity
    exact mul_pos (div_pos hpos1 hpos2) hpos3
  have hse : 0 < Real.sqrt ((((S.length : ℝ) - 1) * variance S
      + ((S.length : ℝ) - 1) * variance S)
      / ((S.length : ℝ) + (S.length : ℝ) - 2)
      * (1 / (S.length : ℝ) + 1 / (S.length : ℝ))) := Real.sqrt_pos.mpr harg
  constructor
  · have ht : (twoSampleTTest S S alpha true).tStatistic
        = jdivF (mean S - mean S)
            (Real.sqrt ((((S.length : ℝ) - 1) * variance S
                + ((S.length : ℝ) - 1) * variance S)
              / ((S.length : ℝ) + (S.length : ℝ) - 2)
              * (1 / (S.length : ℝ) + 1 / (S.length : ℝ)))) := rfl
    rw [ht, sub_self]
    simp only [jdivF, jdiv]
    rw [if_neg (ne_of_gt hse), zero_div]
  · have hp : (twoSampleTTest S S alpha true).pValue = 1 := by
      simp only [twoSampleTTest, jStatStudenttCdf]
      norm_num
    have hr : (twoSampleTTest S S alpha true).reject
        ↔ (twoSampleTTest S S alpha true).pValue < alpha := Iff.rfl
    rw [hr, hp]
    exact not_lt.mpr halpha

/-- C4 witness: the amended statement at the sample `[1, 2]`. -/
theorem C4_twoSampleTTest_identical_amended_witness :
    (twoSampleTTest [1, 2] [1, 2] 0.05 true).tStatistic = JNum.fin 0 ∧
    ¬ (twoSampleTTest [1, 2] [1, 2] 0.05 true).reject :=
  C4_twoSampleTTest_identical_amended [1, 2] 0.05 (by simp)
    ⟨1, by simp, 2, by simp, by norm_num⟩ (by norm_num)

/-! ### C8: mode returns all values of maximal frequency -/

theorem modeKeys_aux_mem (l : List ℚ) :
    ∀ (acc : List ℚ) (v : ℚ),
      v ∈ l.foldl (fun acc v => if v ∈ acc then acc else acc ++ [v]) acc
        ↔ v ∈ acc ∨ v ∈ l := by
  induction l with
  | nil =>
    intro acc v
    simp
  | cons h t ih =>
    intro acc v
    rw [List.foldl_cons]
    by_cases hmem : h ∈ acc
    · rw [if_pos hmem, ih]
      constructor
      · rintro (hv | hv)
        · exact Or.inl hv
        · exact Or.inr (List.mem_cons_of_mem _ hv)
      · rintro (hv | hv)
        · exact Or.inl hv
        · rcases List.mem_cons.mp hv with rfl | hv
          · exact Or.inl hmem
          · exact Or.inr hv
    · rw [if_neg hmem, ih]
      simp only [List.mem_append, List.mem_singleton, List.mem_cons]
      tauto

theorem modeKeys_aux_nodup (l : List ℚ) :
    ∀ acc : List ℚ, acc.Nodup →
      (l.foldl (fun acc v => if v ∈ acc then acc else acc ++ [v]) acc).Nodup := by
  induction l with
  | nil =>
    intro acc h
    exact h
  | cons h t ih =>
    intro acc hacc
    rw [List.foldl_cons]
    by_cases hmem : h ∈ acc
    · rw [if_pos hmem]
      exact ih acc hacc
    · rw [if_neg hmem]
      refine ih _ ?_
      rw [List.nodup_append]
      exact ⟨hacc, List.nodup_singleton _, by simpa using hmem⟩

theorem mem_modeKeys (data : List ℚ) (v : ℚ) : v ∈ modeKeys data ↔ v ∈ data := by
  rw [modeKeys, modeKeys_aux_mem]
  simp

theorem modeKeys_nodup (data : List ℚ) : (modeKeys data).Nodup :=
  modeKeys_aux_nodup data [] List.nodup_nil

theorem foldl_max_le_init {α : Type} [LinearOrder α] (l : List α) :
    ∀ a : α, a ≤ l.foldl max a := by
  induction l with
  | nil =>
    intro a
    simp
  | cons h t ih =>
    intro a
    rw [List.foldl_cons]
    exact le_trans (le_max_left a h) (ih (max a h))

theorem le_foldl_max_of_mem {α : Type} [LinearOrder α] (l : List α) :
    ∀ (a b : α), b ∈ l → b ≤ l.foldl max a := by
  induction l with
  | nil =>
    intro a b hb
    simp at hb
  | cons h t ih =>
    intro a b hb
    rw [List.foldl_cons]
    rcases List.mem_cons.mp hb with rfl | hb
    · exact le_trans (le_max_right a b) (foldl_max_le_init t _)
    · exact ih _ b hb

theorem foldl_max_mem {α : Type} [LinearOrder α] (l : List α) :
    ∀ a : α, l.foldl max a = a ∨ l.foldl max a ∈ l := by
  induction l with
  | nil =>
    intro a
    exact Or.inl rfl
  | cons h t ih =>
    intro a
    rw [List.foldl_cons]
    rcases ih (max a h) with heq | hmem
    · rw [heq]
      rcases le_total a h with hle | hle
      · rw [max_eq_right hle]
        exact Or.inr (List.mem_cons_self _ _)
      · rw [max_eq_left hle]
        exact Or.inl rfl
    · exact Or.inr (List.mem_cons_of_mem _ hmem)

theorem sublist_sum_le {l1 l2 : List ℕ} (h : l1.Sublist l2) : l1.sum ≤ l2.sum := by
  induction h with
  | slnil => simp
  | cons a _ ih =>
    rw [List.sum_cons]
    exact le_trans ih (Nat.le_add_left _ _)
  | cons₂ a _ ih =>
    rw [List.sum_cons, List.sum_cons]
    exact Nat.add_le_add_left ih _

/-- C8: `mode` returns exactly the values of the sample whose occurrence
count equals the maximum occurrence count (never a single tie-broken
value), and the frequencies of the reported values sum to at most the
sample length. -/
theorem C8_mode_argmax (data : List ℚ) (hne : data ≠ []) :
    (∀ v, v ∈ mode data ↔ v ∈ data ∧ data.count v = maxFreq data) ∧
    (∀ v ∈ data, data.count v ≤ maxFreq data) ∧
    (∃ v ∈ data, data.count v = maxFreq data) ∧
    ((mode data).map (fun v => data.count v)).sum ≤ data.length := by
  have hcount : ∀ v ∈ data, data.count v ≤ maxFreq data := by
    intro v hv
    rw [maxFreq]
    exact le_foldl_max_of_mem _ 0 _
      (List.mem_map_of_mem _ ((mem_modeKeys data v).mpr hv))
  refine ⟨?_, hcount, ?_, ?_⟩
  · intro v
    rw [mode, List.mem_filter, mem_modeKeys]
    simp only [decide_eq_true_eq]
  · rcases foldl_max_mem ((modeKeys data).map (fun k => data.count k)) 0 with heq | hmem
    · obtain ⟨x, hx⟩ := List.exists_mem_of_ne_nil data hne
      have h1 : 0 < data.count x := List.count_pos_iff.mpr hx
      have h0 : maxFreq data = 0 := heq
      have := hcount x hx
      omega
    · obtain ⟨k, hk, hkeq⟩ := List.mem_map.mp hmem
      exact ⟨k, (mem_modeKeys data k).mp hk, hkeq⟩
  · have h3 : ((mode data).map (fun v => data.count v)).sum
        ≤ ((modeKeys data).map (fun v => data.count v)).sum :=
      sublist_sum_le ((List.filter_sublist _).map _)
    have h4 : ((modeKeys data).map (fun v => data.count v)).sum = data.length := by
      rw [← List.sum_toFinset _ (modeKeys_nodup data)]
      have hfs : (modeKeys data).toFinset = data.toFinset := by
        ext v
        simp [mem_modeKeys]
      rw [hfs, List.sum_toFinset_count_eq_length]
    exact h4 ▸ h3

/-- C8 witness: the statement at the concrete sample `[1, 2, 2]`. -/
theorem C8_mode_argmax_witness :
    (∀ v, v ∈ mode [1, 2, 2] ↔ v ∈ ([1, 2, 2] : List ℚ)
        ∧ ([1, 2, 2] : List ℚ).count v = maxFreq [1, 2, 2]) ∧
    (∀ v ∈ ([1, 2, 2] : List ℚ), ([1, 2, 2] : List ℚ).count v ≤ maxFreq [1, 2, 2]) ∧
    (∃ v ∈ ([1, 2, 2] : List ℚ), ([1, 2, 2] : List ℚ).count v = maxFreq [1, 2, 2]) ∧
    ((mode [1, 2, 2]).map (fun v => ([1, 2, 2] : List ℚ).count v)).sum
        ≤ ([1, 2, 2] : List ℚ).length :=
  C8_mode_argmax [1, 2, 2] (by simp)

/-! ### C3: histogram counts -/

theorem foldl_min_le_init {α : Type} [LinearOrder α] (l : List α) :
    ∀ a : α, l.foldl min a ≤ a := by
  induction l with
  | nil =>
    intro a
    simp
  | cons h t ih =>
    intro a
    rw [List.foldl_cons]
    exact le_trans (ih (min a h)) (min_le_left a h)

theorem foldl_min_le_of_mem {α : Type} [LinearOrder α] (l : List α) :
    ∀ (a b : α), b ∈ l → l.foldl min a ≤ b := by
  induction l with
  | nil =>
    intro a b hb
    simp at hb
  | cons h t ih =>
    intro a b hb
    rw [List.foldl_cons]
    rcases List.mem_cons.mp hb with rfl | hb
    · exact le_trans (foldl_min_le_init t _) (min_le_right a b)
    · exact ih _ b hb

theorem listMin_le (data : List ℚ) (v : ℚ) (hv : v ∈ data) : listMin data ≤ v := by
  match data with
  | [] => simp at hv
  | h :: t =>
    rw [listMin]
    rcases List.mem_cons.mp hv with rfl | hv
    · exact foldl_min_le_init t v
    · exact foldl_min_le_of_mem t h v hv

theorem le_listMax (data : List ℚ) (v : ℚ) (hv : v ∈ data) : v ≤ listMax data := by
  match data with
  | [] => simp at hv
  | h :: t =>
    rw [listMax]
    rcases List.mem_cons.mp hv with rfl | hv
    · exact foldl_max_le_init t v
    · exact le_foldl_max_of_mem t h v hv

/-- Incrementing one in-range slot raises the total count by one. -/
theorem sum_update_one (bins : ℕ) (c : ℕ → ℕ) (i : ℤ) (h0 : 0 ≤ i) (hb : i < (bins : ℤ)) :
    (∑ j in Finset.range bins, (if (j : ℤ) = i then c j + 1 else c j))
      = (∑ j in Finset.range bins, c j) + 1 := by
  have hk : i.toNat < bins := by omega
  have hcast : ((i.toNat : ℤ)) = i := Int.toNat_of_nonneg h0
  have hpt : ∀ j : ℕ,
      (if (j : ℤ) = i then c j + 1 else c j) = c j + (if j = i.toNat then 1 else 0) := by
    intro j
    by_cases hj : j = i.toNat
    · subst hj
      rw [if_pos hcast, if_pos rfl]
    · rw [if_neg (fun hc => hj (by omega)), if_neg hj, add_zero]
  rw [Finset.sum_congr rfl (fun j _ => hpt j), Finset.sum_add_distrib,
    Finset.sum_ite_eq' (Finset.range bins) i.toNat (fun _ => 1),
    if_pos (Finset.mem_range.mpr hk)]

/-- When every data value lands in a valid slot, folding `bumpCounts`
adds the list length to the total count over the read range. -/
theorem hist_fold_sum (mn w : ℚ) (bins : ℕ) :
    ∀ data : List ℚ,
      (∀ v ∈ data, ∃ i : ℤ, binSlot mn w bins v = some i ∧ 0 ≤ i ∧ i < (bins : ℤ)) →
      ∀ c : ℕ → ℕ,
        (∑ j in Finset.range bins, (data.foldl (bumpCounts mn w bins) c) j)
          = (∑ j in Finset.range bins, c j) + data.length := by
  intro data
  induction data with
  | nil =>
    intro _ c
    simp
  | cons h t ih =>
    intro hall c
    obtain ⟨i, hi, h0, hb⟩ := hall h (List.mem_cons_self _ _)
    have hstep : bumpCounts mn w bins c h
        = fun (j : ℕ) => if (j : ℤ) = i then c j + 1 else c j := by
      simp only [bumpCounts, hi]
    rw [List.foldl_cons, hstep,
      ih (fun v hv => hall v (List.mem_cons_of_mem _ hv)) _,
      sum_update_one bins c i h0 hb, List.length_cons]
    omega

/-- Under a positive bin width every value between the sample minimum
and maximum lands in a slot of the read range. -/
theorem binSlot_valid (mn mx : ℚ) (bins : ℕ) (hbins : 1 ≤ bins) (hlt : mn < mx)
    (v : ℚ) (h1 : mn ≤ v) (h2 : v ≤ mx) :
    ∃ i : ℤ, binSlot mn ((mx - mn) / (bins : ℚ)) bins v = some i
      ∧ 0 ≤ i ∧ i < (bins : ℤ) := by
  have hbpos : (0 : ℚ) < (bins : ℚ) := by exact_mod_cast hbins
  have hwpos : 0 < (mx - mn) / (bins : ℚ) := div_pos (by linarith) hbpos
  have hq : jdivF (v - mn) ((mx - mn) / (bins : ℚ))
      = JNum.fin ((v - mn) / ((mx - mn) / (bins : ℚ))) := by
    simp only [jdivF, jdiv]
    rw [if_neg (ne_of_gt hwpos)]
  have hq0 : 0 ≤ (v - mn) / ((mx - mn) / (bins : ℚ)) :=
    div_nonneg (by linarith) (le_of_lt hwpos)
  have hqb : (v - mn) / ((mx - mn) / (bins : ℚ)) ≤ (bins : ℚ) := by
    rw [div_le_iff hwpos]
    have hmul : (bins : ℚ) * ((mx - mn) / (bins : ℚ)) = mx - mn := by
      field_simp
    rw [hmul]
    linarith
  have hfl0 : 0 ≤ ⌊(v - mn) / ((mx - mn) / (bins : ℚ))⌋ :=
    Int.le_floor.mpr (by exact_mod_cast hq0)
  have hflb : ⌊(v - mn) / ((mx - mn) / (bins : ℚ))⌋ ≤ (bins : ℤ) := by
    have hle : ((⌊(v - mn) / ((mx - mn) / (bins : ℚ))⌋ : ℚ)) ≤ (bins : ℚ) :=
      le_trans (Int.floor_le _) hqb
    exact_mod_cast hle
  rw [binSlot, hq]
  by_cases hEq : ⌊(v - mn) / ((mx - mn) / (bins : ℚ))⌋ = (bins : ℤ)
  · exact ⟨(bins : ℤ) - 1, by simp [hEq], by omega, by omega⟩
  · exact ⟨⌊(v - mn) / ((mx - mn) / (bins : ℚ))⌋, by simp [hEq], hfl0, by omega⟩

/-- A value equal to the sample maximum computes the raw index `bins`
and is folded into the last bin `bins - 1`. -/
theorem binSlot_max (mn mx : ℚ) (bins : ℕ) (hbins : 1 ≤ bins) (hlt : mn < mx) :
    binSlot mn ((mx - mn) / (bins : ℚ)) bins mx = some ((bins : ℤ) - 1) := by
  have hbpos : (0 : ℚ) < (bins : ℚ) := by exact_mod_cast hbins
  have hwpos : 0 < (mx - mn) / (bins : ℚ) := div_pos (by linarith) hbpos
  have hq : jdivF (mx - mn) ((mx - mn) / (bins : ℚ))
      = JNum.fin ((mx - mn) / ((mx - mn) / (bins : ℚ))) := by
    simp only [jdivF, jdiv]
    rw [if_neg (ne_of_gt hwpos)]
  have hval : (mx - mn) / ((mx - mn) / (bins : ℚ)) = (bins : ℚ) := by
    rw [div_div_eq_mul_div, mul_comm, mul_div_assoc, div_self (by linarith : mx - mn ≠ 0),
      mul_one]
  rw [binSlot, hq, hval]
  simp

theorem sum_map_range (n : ℕ) (f : ℕ → ℕ) :
    ((List.range n).map f).sum = ∑ j in Finset.range n, f j := by
  induction n with
  | zero => simp
  | succ m ih =>
    rw [List.range_succ, List.map_append, List.sum_append, Finset.sum_range_succ, ih]
    simp

/-- C3 (counterexample): on the constant sample `[5, 5]` the bin width
is `0`, every bin index is the JS value `Math.floor(0 / 0) = NaN`, and
`binCounts[NaN]++` touches no slot, so the counts sum to `0`, not to
`len(S) = 2`. -/
theorem C3_histogram_counts_counterexample :
    ((histogram [5, 5] 2).map (fun b => b.count)).sum ≠ ([5, 5] : List ℚ).length := by
  simp [histogram, listMin, listMax, bumpCounts, binSlot, jdivF, jdiv, List.range_succ]

/-- C3 (amended): for every sample whose minimum is strictly below its
maximum (at least two distinct values) and every `bins ≥ 1`, the
histogram counts sum to exactly `len(S)`, there is no overflow bin, and
a value equal to the maximum (raw index `bins`) is folded into the last
bin.  On a constant sample every count is `0` (see the
counterexample). -/
theorem C3_histogram_counts_amended (data : List ℚ) (bins : ℕ)
    (hbins : 1 ≤ bins) (hlt : listMin data < listMax data) :
    ((histogram data bins).map (fun b => b.count)).sum = data.length ∧
    (histogram data bins).length = bins ∧
    binSlot (listMin data) ((listMax data - listMin data) / (bins : ℚ)) bins (listMax data)
      = some ((bins : ℤ) - 1) := by
  refine ⟨?_, by simp [histogram], binSlot_max _ _ _ hbins hlt⟩
  have hall : ∀ v ∈ data, ∃ i : ℤ,
      binSlot (listMin data) ((listMax data - listMin data) / (bins : ℚ)) bins v = some i
        ∧ 0 ≤ i ∧ i < (bins : ℤ) :=
    fun v hv => binSlot_valid _ _ _ hbins hlt v (listMin_le data v hv) (le_listMax data v hv)
  simp only [histogram, List.map_map]
  rw [sum_map_range]
  simp only [Function.comp_apply]
  rw [hist_fold_sum _ _ _ data hall (fun _ => 0)]
  simp

/-- C3 witness: the amended statement at the sample `[1, 2, 3]` with two
bins. -/
theorem C3_histogram_counts_amended_witness :
    ((histogram [1, 2, 3] 2).map (fun b => b.count)).sum = ([1, 2, 3] : List ℚ).length ∧
    (histogram [1, 2, 3] 2).length = 2 ∧
    binSlot (listMin [1, 2, 3]) ((listMax [1, 2, 3] - listMin [1, 2, 3]) / (2 : ℚ)) 2
        (listMax [1, 2, 3]) = some 1 := by
  have h := C3_histogram_counts_amended [1, 2, 3] 2 (by norm_num) (by decide)
  simpa using h

/-! ### C9: coin flip simulation invariants -/

theorem flipStep_heads (rand : ℕ → ℚ) (p : ℚ) (N : ℕ) (s : FlipState) (i : ℕ) :
    (flipStep rand p N s i).heads
      = if decide (rand i < p) then s.heads + 1 else s.heads := by
  simp only [flipStep]
  split <;> rfl

theorem flipStep_tails (rand : ℕ → ℚ) (p : ℚ) (N : ℕ) (s : FlipState) (i : ℕ) :
    (flipStep rand p N s i).tails
      = if decide (rand i < p) then s.tails else s.tails + 1 := by
  simp only [flipStep]
  split <;> rfl

theorem flipStep_results (rand : ℕ → ℚ) (p : ℚ) (N : ℕ) (s : FlipState) (i : ℕ) :
    (flipStep rand p N s i).results
      = s.results ++ [if decide (rand i < p) then "H" else "T"] := by
  simp only [flipStep]
  split <;> rfl

theorem flipStep_cum (rand : ℕ → ℚ) (p : ℚ) (N : ℕ) (s : FlipState) (i : ℕ) :
    (flipStep rand p N s i).cum
      = if (i + 1) % checkpointStep N = 0 ∨ i = N - 1 then
          s.cum ++ [(i + 1,
            (((if decide (rand i < p) then s.heads + 1 else s.heads) : ℕ) : ℚ)
              / ((i : ℚ) + 1))]
        else s.cum := by
  simp only [flipStep]
  split <;> rfl

theorem flipIter_heads_tails (rand : ℕ → ℚ) (p : ℚ) (N : ℕ) :
    ∀ n : ℕ, (flipIter rand p N n).heads + (flipIter rand p N n).tails = n := by
  intro n
  induction n with
  | zero => rfl
  | succ m ih =>
    rw [flipIter, flipStep_heads, flipStep_tails]
    by_cases h : rand m < p <;> simp [h] <;> omega

theorem flipIter_results_length (rand : ℕ → ℚ) (p : ℚ) (N : ℕ) :
    ∀ n : ℕ, (flipIter rand p N n).results.length = n := by
  intro n
  induction n with
  | zero => rfl
  | succ m ih =>
    rw [flipIter, flipStep_results]
    simp [ih]

theorem flipIter_cum_mono (rand : ℕ → ℚ) (p : ℚ) (N : ℕ) (n : ℕ) (x : ℕ × ℚ)
    (hx : x ∈ (flipIter rand p N n).cum) : x ∈ (flipIter rand p N (n + 1)).cum := by
  rw [flipIter, flipStep_cum]
  split
  · exact List.mem_append_left _ hx
  · exact hx

theorem flipIter_cum_mem (rand : ℕ → ℚ) (p : ℚ) (N : ℕ) :
    ∀ n m : ℕ, 1 ≤ m → m ≤ n → m % checkpointStep N = 0 →
      ∃ q : ℚ, (m, q) ∈ (flipIter rand p N n).cum := by
  intro n
  induction n with
  | zero =>
    intro m h1 h0 _
    omega
  | succ k ih =>
    intro m h1 hle hmod
    rcases Nat.lt_or_ge m (k + 1) with hlt | hge
    · obtain ⟨q, hq⟩ := ih m h1 (by omega) hmod
      exact ⟨q, flipIter_cum_mono rand p N k (m, q) hq⟩
    · have hm : m = k + 1 := by omega
      subst hm
      rw [flipIter, flipStep_cum, if_pos (Or.inl hmod)]
      exact ⟨_, List.mem_append_right _ (List.mem_singleton.mpr rfl)⟩

theorem flipIter_cum_last (rand : ℕ → ℚ) (p : ℚ) (N : ℕ) (hN : 1 ≤ N) :
    ∃ q : ℚ, (flipIter rand p N N).cum.getLast? = some (N, q) := by
  obtain ⟨k, rfl⟩ : ∃ k, N = k + 1 := ⟨N - 1, by omega⟩
  have hcond : (k + 1) % checkpointStep (k + 1) = 0 ∨ k = k + 1 - 1 := Or.inr (by omega)
  rw [flipIter, flipStep_cum, if_pos hcond]
  exact ⟨_, List.getLast?_concat _⟩

/-- C9: for every `numFlips ≥ 1`, probability, and sequence of uniform
draws, `coinFlipSimulation` returns `heads + tails = numFlips`,
`headsRatio = heads / numFlips`, a results array of length
`min(numFlips, 100)` (the raw sequence truncated to the first 100), a
cumulative-proportion checkpoint at every multiple of
`max(1, floor(numFlips / 100))` up to `numFlips`, and a last checkpoint
recording the final flip. -/
theorem C9_coinFlip_invariants (numFlips : ℕ) (p : ℚ) (rand : ℕ → ℚ)
    (hpos : 1 ≤ numFlips) :
    (coinFlipSimulation numFlips p rand).heads
        + (coinFlipSimulation numFlips p rand).tails = numFlips ∧
    (coinFlipSimulation numFlips p rand).headsRatio
        = ((coinFlipSimulation numFlips p rand).heads : ℚ) / (numFlips : ℚ) ∧
    (coinFlipSimulation numFlips p rand).results.length = min numFlips 100 ∧
    (∀ m : ℕ, 1 ≤ m → m ≤ numFlips → m % checkpointStep numFlips = 0 →
      ∃ q : ℚ, (m, q) ∈ (coinFlipSimulation numFlips p rand).cumulativeProportions) ∧
    (∃ q : ℚ, (coinFlipSimulation numFlips p rand).cumulativeProportions.getLast?
        = some (numFlips, q)) := by
  refine ⟨flipIter_heads_tails rand p numFlips numFlips, rfl, ?_, ?_, ?_⟩
  · have hlt : (coinFlipSimulation numFlips p rand).results
        = (flipIter rand p numFlips numFlips).results.take 100 := rfl
    rw [hlt, List.length_take, flipIter_results_length, Nat.min_comm]
  · exact fun m h1 hle hmod => flipIter_cum_mem rand p numFlips numFlips m h1 hle hmod
  · exact flipIter_cum_last rand p numFlips hpos

/-- C9 witness: the invariants at three flips of a deterministic
sequence of draws. -/
theorem C9_coinFlip_invariants_witness :
    (coinFlipSimulation 3 (1/2) (fun _ => 0)).heads
        + (coinFlipSimulation 3 (1/2) (fun _ => 0)).tails = 3 ∧
    (coinFlipSimulation 3 (1/2) (fun _ => 0)).headsRatio
        = ((coinFlipSimulation 3 (1/2) (fun _ => 0)).heads : ℚ) / (3 : ℚ) ∧
    (coinFlipSimulation 3 (1/2) (fun _ => 0)).results.length = min 3 100 ∧
    (∀ m : ℕ, 1 ≤ m → m ≤ 3 → m % checkpointStep 3 = 0 →
      ∃ q : ℚ, (m, q) ∈ (coinFlipSimulation 3 (1/2) (fun _ => 0)).cumulativeProportions) ∧
    (∃ q : ℚ, (coinFlipSimulation 3 (1/2) (fun _ => 0)).cumulativeProportions.getLast?
        = some (3, q)) :=
  C9_coinFlip_invariants 3 (1/2) (fun _ => 0) (by norm_num)

/-- C10 witness: a concrete expected array containing a zero still gives
a finite statistic, the zero category skipped. -/
theorem C10_chiSquare_guarded_witness :
    ∃ r, chiSquareGoodnessOfFit [1, 2] [0, 1] 0.05 = Except.ok r ∧
      ∃ q : ℚ, r.chiSquareStatistic = JNum.fin q ∧ 0 ≤ q ∧
        q = ((List.zip ([1, 2] : List ℚ) [0, 1]).filter (fun oe => decide (0 < oe.2))).foldl
              (fun acc oe => acc + (oe.1 - oe.2) ^ 2 / oe.2) 0 :=
  C10_chiSquare_guarded [1, 2] [0, 1] 0.05 (by simp)
